import Mathlib

/-!
Shallow embedding of `eden/estimator.py` (Python 2).

Conventions of the embedding:
* Lists model Python lists; `List.zip` models Python 2 `zip` (which returns a
  list truncated to the shorter input).
* `random.shuffle` is modelled by `shuffleModel`, a permutation of the list
  driven by an abstract random source `r : Nat → Nat` (at each step the element
  at index `r n % n` of the remaining list is drawn next).
* `random.random()` draws are modelled by an abstract source `Nat → ℚ`;
  floating-point decision values are modelled by rationals.
* External library calls (graph vectorization, `SGDClassifier`,
  `sklearn.cross_val_score`) are opaque function parameters.
-/

namespace Eden

variable {α β G L : Type}

/-- Recursion core of the `random.shuffle` model: at each step the element at
index `r n % n` of the remaining list (of length `n`) is drawn next.  The fuel
argument equals the list length at every call, making the recursion
structural. -/
def shuffleGo (r : Nat → Nat) : Nat → List α → List α
  | 0, _ => []
  | fuel + 1, l =>
    match l.drop (r l.length % l.length) with
    | [] => []
    | y :: rest => y :: shuffleGo r fuel (l.take (r l.length % l.length) ++ rest)

/-- Model of `random.shuffle`: a permutation of the list driven by the
abstract random source `r`.  This produces exactly the permutations a
Fisher–Yates shuffle can produce. -/
def shuffleModel (r : Nat → Nat) (l : List α) : List α :=
  shuffleGo r l.length l

/-- `paired_shuffle(iterable1, iterable2)`:
zips the two inputs (Python 2 `zip` truncates to the shorter), shuffles the
list of pairs in place, unzips, and returns the two component lists.
`toolz.sandbox.core.unzip` returns an *empty tuple* on an empty input, so the
two-name unpacking `i1, i2 = unzip(i1i2)` raises `ValueError` whenever the
zipped list is empty; that error path is modelled as `none`. -/
def paired_shuffle (r : Nat → Nat) (iterable1 : List α) (iterable2 : List β) :
    Option (List α × List β) :=
  let i1i2 := List.zip iterable1 iterable2
  let shuffled := shuffleModel r i1i2
  if shuffled.isEmpty then none
  else some (shuffled.unzip.1, shuffled.unzip.2)

/-! ### `subsample` -/

/-- The distinct values of a list, in first-encounter order: models the keys
of a Python dict built by grouping (`toolz.groupby(first, tg)` and
`Counter(targets)` both key on the distinct labels). -/
def keysOf [DecidableEq L] (l : List L) : List L :=
  l.foldl (fun acc y => if y ∈ acc then acc else acc ++ [y]) []

/-- The per-class accumulation loop of `subsample`: for each class key `y` in
order, take the first `per` pairs of the group of `y` from `tg`, and append
their graphs together with the label list `[y] * len(...)`. -/
def subsampleLoop [DecidableEq L] (tg : List (L × G)) (per : Nat) :
    List L → List G × List L
  | [] => ([], [])
  | y :: ys =>
    let class_subgraphs :=
      ((tg.filter (fun p => decide (p.1 = y))).take per).map Prod.snd
    let rest := subsampleLoop tg per ys
    (class_subgraphs ++ rest.1,
      List.replicate class_subgraphs.length y ++ rest.2)

/-- `subsample(graphs, targets, subsample_size)`: groups `zip(targets, graphs)`
by label, truncates each class group to `subsample_size / num_classes`
(Python 2 integer division on ints) in encounter order, concatenates across
groups and pair-shuffles the result.  Returns `none` on an empty label list,
where Python raises `ZeroDivisionError` on `subsample_size / 0`, and when the
truncated dataset is empty, where `paired_shuffle` raises `ValueError`. -/
def subsample [DecidableEq L] (r : Nat → Nat) (graphs : List G) (targets : List L)
    (subsample_size : Nat) : Option (List G × List L) :=
  let tg := List.zip targets graphs
  let num_classes := (keysOf targets).length
  if num_classes = 0 then none
  else
    let res := subsampleLoop tg (subsample_size / num_classes) (keysOf targets)
    paired_shuffle r res.1 res.2

/-! ### `balance` -/

/-- The majority/minority scan loop of `balance` over the `Counter` keys:
`max_count` starts at 0, `min_count` at `1e6`, and a key with a strictly
larger (resp. strictly smaller) count replaces the current majority
(resp. minority) class. -/
def findMajMin (cnt : L → Nat) :
    List L → Option L → Nat → Option L → Nat → Option L × Option L
  | [], maj, _, mn, _ => (maj, mn)
  | k :: ks, maj, maxc, mn, minc =>
    let maj' := if maxc < cnt k then some k else maj
    let maxc' := if maxc < cnt k then cnt k else maxc
    let mn' := if cnt k < minc then some k else mn
    let minc' := if cnt k < minc then cnt k else minc
    findMajMin cnt ks maj' maxc' mn' minc'

/-- Majority and minority class of `balance`: the scan over the distinct
class keys of `Counter(targets)`. -/
def balanceMajMin [DecidableEq L] (targets : List L) : Option L × Option L :=
  findMajMin (fun y => targets.count y) (keysOf targets) none 0 none 1000000

/-- `desired_size = int(min_count * ratio)`.  All call sites use a
nonnegative `ratio`, where Python truncation toward zero equals the floor;
the floor of `min_count * ratio` is computed on the integer numerator and
denominator (see `desiredSize_eq_floor`). -/
def desiredSize (min_count : Nat) (ratio : ℚ) : Nat :=
  ((min_count * ratio.num) / (ratio.den : Int)).toNat

/-- The graphs of class `y` in input order:
`[second(x) for x in class_graphs[y]]` with
`class_graphs = groupby(first, zip(targets, graphs))`. -/
def classGraphs [DecidableEq L] (graphs : List G) (targets : List L) (y : L) :
    List G :=
  ((List.zip targets graphs).filter (fun p => decide (p.1 = y))).map Prod.snd

/-- Comparison used by `sorted(zip(preds, maj_graphs))`: by the prediction
component.  (On ties Python compares the graph objects, an arbitrary but
fixed order; the sort here is stable instead.  No claim depends on the order
among equal predictions.) -/
def predLE (p q : ℚ × G) : Prop := p.1 ≤ q.1

instance : DecidableRel (predLE (G := G)) :=
  fun p q => inferInstanceAs (Decidable (p.1 ≤ q.1))

instance : IsTotal (ℚ × G) predLE := ⟨fun a b => le_total a.1 b.1⟩

instance : IsTrans (ℚ × G) predLE := ⟨fun _ _ _ h1 h2 => le_trans h1 h2⟩

/-- `sorted(zip(preds, maj_graphs))`. -/
def sortedPredGraphs (preds : List ℚ) (gs : List G) : List (ℚ × G) :=
  List.insertionSort predLE (List.zip preds gs)

/-- The absolute decision values `[abs(pred) for pred in preds]`: margins of
the supplied estimator, or `random.random()` draws from the abstract source
`rU` when no estimator is given. -/
def balancePreds (rU : Nat → ℚ) (estimator : Option (G → ℚ))
    (maj_graphs : List G) : List ℚ :=
  match estimator with
  | some f => maj_graphs.map (fun g => |f g|)
  | none => ((List.range maj_graphs.length).map rU).map (fun q => |q|)

/-- The majority-class members kept by `balance`: the graphs of the first
`desired_size` entries of the sorted prediction/graph pairs. -/
def selectedMaj (preds : List ℚ) (gs : List G) (desired : Nat) : List G :=
  ((sortedPredGraphs preds gs).take desired).map Prod.snd

/-- The majority-class members dropped by `balance`. -/
def excludedMaj (preds : List ℚ) (gs : List G) (desired : Nat) : List G :=
  ((sortedPredGraphs preds gs).drop desired).map Prod.snd

/-- `balance(graphs, targets, estimator, ratio)`: finds majority and minority
classes, keeps all minority graphs and the `desired_size` majority graphs of
smallest absolute decision value, and pair-shuffles the result.  Returns
`none` when the scan leaves majority or minority unset (Python then raises
`KeyError` on `class_graphs[None]`), which happens only on an empty dataset
or when every class count is at least `1e6`, and when the balanced dataset is
empty, where `paired_shuffle` raises `ValueError`. -/
def balance [DecidableEq L] (rSh : Nat → Nat) (rU : Nat → ℚ) (graphs : List G)
    (targets : List L) (estimator : Option (G → ℚ)) (ratio : ℚ) :
    Option (List G × List L) :=
  match balanceMajMin targets with
  | (some majority_class, some minority_class) =>
    let min_count := targets.count minority_class
    let desired_size := desiredSize min_count ratio
    let maj_graphs := classGraphs graphs targets majority_class
    let min_graphs := classGraphs graphs targets minority_class
    let preds := balancePreds rU estimator maj_graphs
    let kept := selectedMaj preds maj_graphs desired_size
    let bal_graphs := min_graphs ++ kept
    let bal_targets := List.replicate min_graphs.length minority_class ++
      List.replicate kept.length majority_class
    paired_shuffle rSh bal_graphs bal_targets
  | _ => none

/-! ### `EdenEstimator` -/

variable {V : Type}

/-- State of an `EdenEstimator`: the hyperparameters set by
`__init__`/`set_params`, plus the `SGDClassifier`, modelled as `none` while
unfit and as its decision function (feature vector to margin) once fitted. -/
structure EdenEstimator (V L : Type) where
  r : Nat
  d : Nat
  n_jobs : Int
  discrete : Bool
  balance : Bool
  subsample_size : Nat
  ratio : ℚ
  model : Option (V → ℚ)

/-- `EdenEstimator.__init__` / `set_params`: store the hyperparameters and
create a fresh, unfit `SGDClassifier`. -/
def mkEdenEstimator (r d : Nat) (n_jobs : Int) (discrete balance : Bool)
    (subsample_size : Nat) (ratio : ℚ) : EdenEstimator V L :=
  { r := r, d := d, n_jobs := n_jobs, discrete := discrete, balance := balance,
    subsample_size := subsample_size, ratio := ratio, model := none }

/-- `transform`: vectorize the graphs with the estimator's hyperparameters.
The vectorizer `vec` models the external `eden.graph.vectorize` (`n_jobs`
only sets its parallelism and cannot affect values). -/
def EdenEstimator.transform (vec : Nat → Nat → Bool → G → V)
    (e : EdenEstimator V L) (graphs : List G) : List V :=
  graphs.map (vec e.r e.d e.discrete)

/-- `fit(graphs, targets, randomize=True)`.  With balancing enabled and
`randomize`, balance with no estimator (random margins); with balancing
enabled and `randomize=False`, first subsample and fit a bootstrap model,
then balance using that model's decision function; either way the final
model is trained (`sgdFit`, the external `SGDClassifier.fit`) on the
vectorized balanced data.  With balancing disabled, train directly on the
vectorized raw data.  `none` models Python exceptions propagating out of
`subsample`/`balance` on degenerate inputs. -/
def EdenEstimator.fit [DecidableEq L] (sgdFit : List V → List L → V → ℚ)
    (vec : Nat → Nat → Bool → G → V) (rSub rSh : Nat → Nat) (rU : Nat → ℚ)
    (e : EdenEstimator V L) (graphs : List G) (targets : List L)
    (randomize : Bool) : Option (EdenEstimator V L) :=
  if e.balance then
    let bal :=
      if randomize then
        Eden.balance rSh rU graphs targets none e.ratio
      else
        match subsample rSub graphs targets e.subsample_size with
        | none => none
        | some (samp_graphs, samp_targets) =>
          let m := sgdFit (e.transform vec samp_graphs) samp_targets
          Eden.balance rSh rU graphs targets
            (some (fun g => m (vec e.r e.d e.discrete g))) e.ratio
    match bal with
    | none => none
    | some (bal_graphs, bal_targets) =>
      some { e with model := some (sgdFit (e.transform vec bal_graphs) bal_targets) }
  else
    some { e with model := some (sgdFit (e.transform vec graphs) targets) }

/-- `cross_val_score(graphs, target, scoring='roc_auc', cv=5)`: vectorize the
full dataset and delegate to the external `sklearn.cross_val_score` (the
oracle `cvs`, which clones the model it is given), returning the per-fold
scores; the method body assigns no attribute, so the estimator is returned
unchanged. -/
def EdenEstimator.cross_val_score
    (cvs : Option (V → ℚ) → List V → List L → String → Nat → List ℚ)
    (vec : Nat → Nat → Bool → G → V) (e : EdenEstimator V L)
    (graphs : List G) (target : List L) (scoring : String) (cv : Nat) :
    List ℚ × EdenEstimator V L :=
  (cvs e.model (e.transform vec graphs) target scoring cv, e)

/-! ### `model_selection_rand` -/

/-- `param_distr["r"] = range(1, 5)` in `model_selection_rand`. -/
def param_distr_r : List Nat := [1, 2, 3, 4]

/-- `param_distr["d"] = range(0, 6)` in `model_selection_rand`. -/
def param_distr_d : List Nat := [0, 1, 2, 3, 4, 5]

/-- `random.choice(seq)`: the element at a random index, the abstract draw
reduced modulo the length. -/
def pychoice (l : List Nat) (i : Nat) : Nat :=
  l.getD (i % l.length) 0

/-- `_sample_params(param_distr)`: one `random.choice` per hyperparameter;
the result is the `(r, d)` pair. -/
def sample_params (rc rd : Nat) : Nat × Nat :=
  (pychoice param_distr_r rc, pychoice param_distr_d rd)

/-- `_eval_params(graphs, targets, param_distr)`: sample parameters, build a
fresh estimator with `n_jobs=1` and those parameters, run
`cross_val_score`, and return `(np.mean(scores), params)`. -/
def eval_params (cvs : Option (V → ℚ) → List V → List L → String → Nat → List ℚ)
    (vec : Nat → Nat → Bool → G → V) (graphs : List G) (targets : List L)
    (rc rd : Nat) : ℚ × Nat × Nat :=
  let p := sample_params rc rd
  let est : EdenEstimator V L := mkEdenEstimator p.1 p.2 1 true false 200 2
  let scores :=
    (EdenEstimator.cross_val_score cvs vec est graphs targets "roc_auc" 5).1
  (scores.sum / (scores.length : ℚ), p)

/-- Python `<` on the `(mean_score, params)` tuples: by score first; ties
compare the params dicts (Python 2 compares `{"d": …, "r": …}` by sorted
key order, hence `d` before `r`).  The spec flags the tie order on params as
ambiguous; no claim depends on it. -/
def pairLt (a b : ℚ × Nat × Nat) : Bool :=
  decide (a.1 < b.1) ||
    (decide (a.1 = b.1) &&
      (decide (a.2.2 < b.2.2) ||
        (decide (a.2.2 = b.2.2) && decide (a.2.1 < b.2.1))))

/-- `max(scores)` over a nonempty list, Python semantics: a later element
replaces the current maximum only when strictly greater. -/
def pymax (acc : ℚ × Nat × Nat) : List (ℚ × Nat × Nat) → ℚ × Nat × Nat
  | [] => acc
  | x :: xs => pymax (if pairLt acc x then x else acc) xs

/-- `model_selection_rand(graphs, targets, n_iter=30, subsample_size=None)`:
optionally subsample, run `n_iter` independent trials of `_eval_params`
(trial `t` draws its parameters through the abstract sources `rc t`, `rd t`),
take `max(scores)`, and return `EdenEstimator(**best_params)` — a newly
constructed estimator carrying the winning hyperparameters.  `none` models
the Python exceptions `max([])` (on `n_iter = 0`) and `ZeroDivisionError`
from an empty subsample. -/
def model_selection_rand [DecidableEq L]
    (cvs : Option (V → ℚ) → List V → List L → String → Nat → List ℚ)
    (vec : Nat → Nat → Bool → G → V) (rSub : Nat → Nat) (rc rd : Nat → Nat)
    (graphs : List G) (targets : List L) (n_iter : Nat)
    (subsample_size : Option Nat) : Option (EdenEstimator V L) :=
  let data :=
    match subsample_size with
    | none => some (graphs, targets)
    | some sz => subsample rSub graphs targets sz
  match data with
  | none => none
  | some (gs, ts) =>
    match (List.range n_iter).map
        (fun t => eval_params cvs vec gs ts (rc t) (rd t)) with
    | [] => none
    | s :: rest =>
      let best := pymax s rest
      some (mkEdenEstimator best.2.1 best.2.2 (-1) true false 200 2)

theorem shuffleGo_perm (r : Nat → Nat) :
    ∀ (fuel : Nat) (l : List α), l.length = fuel → (shuffleGo r fuel l).Perm l := by
  intro fuel
  induction fuel with
  | zero =>
    intro l hl
    rw [List.length_eq_zero] at hl
    subst hl
    simp [shuffleGo]
  | succ f ih =>
    intro l hl
    rw [shuffleGo]
    split
    · next heq =>
      exfalso
      have hklt : r l.length % l.length < l.length := by
        apply Nat.mod_lt
        omega
      have := congrArg List.length heq
      simp only [List.length_drop, List.length_nil] at this
      omega
    · next y rest heq =>
      set k := r l.length % l.length with hkdef
      have hklt : k < l.length := by
        apply Nat.mod_lt
        omega
      have hlen := congrArg List.length heq
      simp only [List.length_drop, List.length_cons] at hlen
      have hrec : (shuffleGo r f (l.take k ++ rest)).Perm (l.take k ++ rest) := by
        apply ih
        simp only [List.length_append, List.length_take]
        omega
      have hsplit : l = l.take k ++ y :: rest := by
        conv_lhs => rw [← List.take_append_drop k l]
        rw [heq]
      have h2 : (l.take k ++ y :: rest).Perm (y :: (l.take k ++ rest)) :=
        List.perm_middle
      conv_rhs => rw [hsplit]
      exact (hrec.cons y).trans h2.symm

theorem shuffleModel_perm_self (r : Nat → Nat) (l : List α) :
    (shuffleModel r l).Perm l :=
  shuffleGo_perm r l.length l rfl

theorem paired_shuffle_some_elim (r : Nat → Nat) {l1 : List α} {l2 : List β}
    {o1 : List α} {o2 : List β} (h : paired_shuffle r l1 l2 = some (o1, o2)) :
    o1 = (shuffleModel r (List.zip l1 l2)).unzip.1 ∧
      o2 = (shuffleModel r (List.zip l1 l2)).unzip.2 := by
  unfold paired_shuffle at h
  by_cases hs : (shuffleModel r (List.zip l1 l2)).isEmpty = true
  · rw [if_pos hs] at h
    cases h
  · rw [if_neg hs] at h
    have h2 := Option.some_inj.mp h
    exact ⟨(congrArg Prod.fst h2).symm, (congrArg Prod.snd h2).symm⟩

theorem zip_ne_nil {l1 : List α} {l2 : List β} (h1 : l1 ≠ []) (h2 : l2 ≠ []) :
    List.zip l1 l2 ≠ [] := by
  intro hz
  have hlen := congrArg List.length hz
  rw [List.length_zip] at hlen
  simp only [List.length_nil] at hlen
  have e1 : l1.length ≠ 0 := fun h0 => h1 (List.length_eq_zero.mp h0)
  have e2 : l2.length ≠ 0 := fun h0 => h2 (List.length_eq_zero.mp h0)
  omega

theorem paired_shuffle_eq_some (r : Nat → Nat) (l1 : List α) (l2 : List β)
    (hne : List.zip l1 l2 ≠ []) :
    paired_shuffle r l1 l2 =
      some ((shuffleModel r (List.zip l1 l2)).unzip.1,
        (shuffleModel r (List.zip l1 l2)).unzip.2) := by
  unfold paired_shuffle
  rw [if_neg ?_]
  intro hs
  rw [List.isEmpty_iff] at hs
  have := (shuffleModel_perm_self r (List.zip l1 l2)).length_eq
  rw [hs] at this
  simp only [List.length_nil] at this
  exact hne (List.length_eq_zero.mp this.symm)

theorem paired_shuffle_zip_perm (r : Nat → Nat) {l1 : List α} {l2 : List β}
    {o1 : List α} {o2 : List β} (h : paired_shuffle r l1 l2 = some (o1, o2)) :
    (List.zip o1 o2).Perm (List.zip l1 l2) := by
  obtain ⟨h1, h2⟩ := paired_shuffle_some_elim r h
  rw [h1, h2]
  simp only [List.zip_unzip]
  exact shuffleModel_perm_self r _

theorem paired_shuffle_lengths (r : Nat → Nat) {l1 : List α} {l2 : List β}
    {o1 : List α} {o2 : List β} (h : paired_shuffle r l1 l2 = some (o1, o2)) :
    o1.length = min l1.length l2.length ∧
      o2.length = min l1.length l2.length := by
  obtain ⟨h1, h2⟩ := paired_shuffle_some_elim r h
  have hp := shuffleModel_perm_self r (List.zip l1 l2)
  constructor
  · rw [h1]
    simp [List.unzip_eq_map, hp.length_eq]
  · rw [h2]
    simp [List.unzip_eq_map, hp.length_eq]

/-- C5 (amended): for nonempty equal-length inputs, `paired_shuffle` returns
two new sequences with one random permutation applied identically to both:
the multiset of zipped (graph, label) pairs is unchanged and both lengths are
preserved.  (On empty inputs the two-name unpacking of `unzip`'s empty tuple
raises `ValueError` instead of returning.) -/
theorem paired_shuffle_preserves_pairs (r : Nat → Nat) (l1 : List α) (l2 : List β)
    (h : l1.length = l2.length) (hne : l1 ≠ []) :
    ∃ o1 o2, paired_shuffle r l1 l2 = some (o1, o2) ∧
      (List.zip o1 o2).Perm (List.zip l1 l2) ∧
      o1.length = l1.length ∧ o2.length = l2.length := by
  have hne2 : l2 ≠ [] := by
    intro h0
    rw [h0] at h
    simp only [List.length_nil] at h
    exact hne (List.length_eq_zero.mp h)
  have hsome := paired_shuffle_eq_some r l1 l2 (zip_ne_nil hne hne2)
  refine ⟨_, _, hsome, paired_shuffle_zip_perm r hsome, ?_, ?_⟩
  · rw [(paired_shuffle_lengths r hsome).1, h, Nat.min_self]
  · rw [(paired_shuffle_lengths r hsome).2, h, Nat.min_self]

theorem paired_shuffle_preserves_pairs_witness :
    ([1, 2, 3] : List Nat).length = ([10, 20, 30] : List Nat).length ∧
      ([1, 2, 3] : List Nat) ≠ [] ∧
      ∃ o1 o2, paired_shuffle (fun _ => 0) ([1, 2, 3] : List Nat)
          ([10, 20, 30] : List Nat) = some (o1, o2) ∧
        (List.zip o1 o2).Perm (List.zip [1, 2, 3] [10, 20, 30]) ∧
        o1.length = ([1, 2, 3] : List Nat).length ∧
        o2.length = ([10, 20, 30] : List Nat).length := by
  refine ⟨rfl, by decide, ?_⟩
  exact paired_shuffle_preserves_pairs (fun _ => 0) [1, 2, 3] [10, 20, 30]
    rfl (by decide)

/-- C5 counterexample: on the equal-length pair of empty sequences, the real
`paired_shuffle` does not return two sequences: `zip` gives `[]`, `unzip([])`
returns an empty tuple, and the two-name unpacking raises `ValueError` —
modelled as `none`. -/
theorem paired_shuffle_preserves_pairs_counterexample :
    ([] : List Nat).length = ([] : List Nat).length ∧
      paired_shuffle (fun _ => 0) ([] : List Nat) ([] : List Nat) = none :=
  ⟨rfl, rfl⟩

/-- C10 (amended): on inputs of different lengths whose shorter input is
nonempty, `paired_shuffle` does not fail: it silently truncates, both outputs
having length `min` of the input lengths and the surviving pairs being a
permutation of the aligned prefix pairs `zip l1 l2`.  When the shorter input
is empty, the zipped list is empty and the two-name unpacking of `unzip`'s
empty tuple raises `ValueError` instead of returning two empty sequences. -/
theorem paired_shuffle_truncates (r : Nat → Nat) (l1 : List α) (l2 : List β)
    (h : l1.length ≠ l2.length) (h1 : l1 ≠ []) (h2 : l2 ≠ []) :
    ∃ o1 o2, paired_shuffle r l1 l2 = some (o1, o2) ∧
      o1.length = min l1.length l2.length ∧
      o2.length = min l1.length l2.length ∧
      (List.zip o1 o2).Perm (List.zip l1 l2) := by
  have hsome := paired_shuffle_eq_some r l1 l2 (zip_ne_nil h1 h2)
  exact ⟨_, _, hsome, (paired_shuffle_lengths r hsome).1,
    (paired_shuffle_lengths r hsome).2, paired_shuffle_zip_perm r hsome⟩

theorem paired_shuffle_truncates_witness :
    ([1, 2, 3] : List Nat).length ≠ ([10, 20] : List Nat).length ∧
      ∃ o1 o2, paired_shuffle (fun _ => 0) ([1, 2, 3] : List Nat)
          ([10, 20] : List Nat) = some (o1, o2) ∧
        o1.length = min 3 2 ∧ o2.length = min 3 2 ∧
        (List.zip o1 o2).Perm (List.zip [1, 2, 3] [10, 20]) := by
  refine ⟨by decide, ?_⟩
  exact paired_shuffle_truncates (fun _ => 0) [1, 2, 3] [10, 20]
    (by decide) (by decide) (by decide)

/-- C10 counterexample: with inputs of different lengths whose shorter input
is empty, `paired_shuffle` fails (`ValueError` from unpacking `unzip`'s empty
tuple, modelled as `none`) instead of silently returning two truncated
sequences. -/
theorem paired_shuffle_truncates_counterexample :
    ([1] : List Nat).length ≠ ([] : List Nat).length ∧
      paired_shuffle (fun _ => 0) ([1] : List Nat) ([] : List Nat) = none :=
  ⟨by decide, rfl⟩

theorem paired_shuffle_snd_subset (r : Nat → Nat) {l1 : List α} {l2 : List β}
    {o1 : List α} {o2 : List β} (h : paired_shuffle r l1 l2 = some (o1, o2)) :
    ∀ y ∈ o2, y ∈ l2 := by
  intro y hy
  rw [(paired_shuffle_some_elim r h).2] at hy
  simp only [List.unzip_eq_map, List.mem_map] at hy
  obtain ⟨p, hp, hpy⟩ := hy
  have hpz : p ∈ List.zip l1 l2 := (shuffleModel_perm_self r _).mem_iff.mp hp
  have := List.of_mem_zip hpz
  rw [← hpy]
  exact this.2

theorem paired_shuffle_comp_perm (r : Nat → Nat) {l1 : List α} {l2 : List β}
    {o1 : List α} {o2 : List β} (hlen : l1.length = l2.length)
    (h : paired_shuffle r l1 l2 = some (o1, o2)) :
    o1.Perm l1 ∧ o2.Perm l2 := by
  obtain ⟨h1, h2⟩ := paired_shuffle_some_elim r h
  have hp := shuffleModel_perm_self r (List.zip l1 l2)
  constructor
  · rw [h1]
    have hm : (shuffleModel r (List.zip l1 l2)).unzip.1 =
        (shuffleModel r (List.zip l1 l2)).map Prod.fst := by
      simp [List.unzip_eq_map]
    rw [hm]
    have := hp.map Prod.fst
    rwa [List.map_fst_zip l1 l2 (le_of_eq hlen)] at this
  · rw [h2]
    have hm : (shuffleModel r (List.zip l1 l2)).unzip.2 =
        (shuffleModel r (List.zip l1 l2)).map Prod.snd := by
      simp [List.unzip_eq_map]
    rw [hm]
    have := hp.map Prod.snd
    rwa [List.map_snd_zip l1 l2 (le_of_eq hlen.symm)] at this

theorem keysOf_foldl_mem [DecidableEq L] :
    ∀ (l acc : List L),
      ∀ y ∈ l.foldl (fun acc y => if y ∈ acc then acc else acc ++ [y]) acc,
        y ∈ acc ∨ y ∈ l := by
  intro l
  induction l with
  | nil => intro acc y hy; exact Or.inl hy
  | cons z zs ih =>
    intro acc y hy
    simp only [List.foldl_cons] at hy
    rcases ih _ y hy with h1 | h2
    · by_cases hz : z ∈ acc
      · rw [if_pos hz] at h1
        exact Or.inl h1
      · rw [if_neg hz] at h1
        rcases List.mem_append.mp h1 with ha | hb
        · exact Or.inl ha
        · simp only [List.mem_singleton] at hb
          exact Or.inr (hb ▸ List.mem_cons_self _ _)
    · exact Or.inr (List.mem_cons_of_mem _ h2)

theorem keysOf_subset [DecidableEq L] (l : List L) :
    ∀ y ∈ keysOf l, y ∈ l := by
  intro y hy
  rcases keysOf_foldl_mem l [] y hy with h | h
  · cases h
  · exact h

theorem subsampleLoop_lengths [DecidableEq L] (tg : List (L × G)) (per : Nat) :
    ∀ (ks : List L),
      (subsampleLoop tg per ks).2.length = (subsampleLoop tg per ks).1.length ∧
        (subsampleLoop tg per ks).1.length ≤ ks.length * per := by
  intro ks
  induction ks with
  | nil => simp [subsampleLoop]
  | cons y ys ih =>
    simp only [subsampleLoop, List.length_append, List.length_replicate,
      List.length_map, List.length_take, List.length_cons]
    constructor
    · omega
    · have h1 : min per (tg.filter (fun p => decide (p.1 = y))).length ≤ per :=
        Nat.min_le_left _ _
      have h2 := ih.2
      calc min per (tg.filter (fun p => decide (p.1 = y))).length +
            (subsampleLoop tg per ys).1.length ≤ per + ys.length * per := by omega
        _ = (ys.length + 1) * per := by ring

theorem subsampleLoop_labels [DecidableEq L] (tg : List (L × G)) (per : Nat) :
    ∀ (ks : List L), ∀ y ∈ (subsampleLoop tg per ks).2, y ∈ ks := by
  intro ks
  induction ks with
  | nil => simp [subsampleLoop]
  | cons z zs ih =>
    intro y hy
    simp only [subsampleLoop, List.mem_append] at hy
    rcases hy with h1 | h2
    · have := List.eq_of_mem_replicate h1
      exact this ▸ List.mem_cons_self _ _
    · exact List.mem_cons_of_mem _ (ih y h2)

/-- C3: whenever `subsample` returns, the two output lists have a common
length that is at most `subsample_size`, and every label in the output was
present in the input label list. -/
theorem subsample_bounds [DecidableEq L] (r : Nat → Nat) (graphs : List G)
    (targets : List L) (subsample_size : Nat) (sg : List G) (st : List L)
    (h : subsample r graphs targets subsample_size = some (sg, st)) :
    sg.length ≤ subsample_size ∧ st.length = sg.length ∧
      ∀ y ∈ st, y ∈ targets := by
  unfold subsample at h
  by_cases hk : (keysOf targets).length = 0
  · simp [hk] at h
  · simp only [hk, if_false] at h
    set nc := (keysOf targets).length with hnc
    set per := subsample_size / nc with hper
    set res := subsampleLoop (List.zip targets graphs) per (keysOf targets) with hres
    have hlen := subsampleLoop_lengths (List.zip targets graphs) per (keysOf targets)
    have hout := paired_shuffle_lengths r h
    refine ⟨?_, ?_, ?_⟩
    · rw [hout.1]
      have hbound : res.1.length ≤ nc * per := hlen.2
      have hdiv : nc * per ≤ subsample_size := by
        rw [hper, Nat.mul_comm]
        exact Nat.div_mul_le_self subsample_size nc
      have : min res.1.length res.2.length ≤ res.1.length := Nat.min_le_left _ _
      omega
    · rw [hout.1, hout.2]
    · intro y hy
      have h1 := paired_shuffle_snd_subset r h y hy
      have h2 := subsampleLoop_labels (List.zip targets graphs) per (keysOf targets) y h1
      exact keysOf_subset targets y h2

theorem desiredSize_eq_floor (n : Nat) (q : ℚ) :
    desiredSize n q = (⌊(n : ℚ) * q⌋).toNat := by
  unfold desiredSize
  congr 1
  rw [← Rat.floor_intCast_div_natCast (n * q.num) q.den]
  congr 1
  push_cast
  conv_rhs => rw [← Rat.num_div_den q]
  ring

theorem balance_eq [DecidableEq L] (rSh : Nat → Nat) (rU : Nat → ℚ)
    (graphs : List G) (targets : List L) (est : Option (G → ℚ)) (ratio : ℚ)
    (majority minority : L)
    (hmm : balanceMajMin targets = (some majority, some minority)) :
    balance rSh rU graphs targets est ratio =
      paired_shuffle rSh
        (classGraphs graphs targets minority ++
          selectedMaj (balancePreds rU est (classGraphs graphs targets majority))
            (classGraphs graphs targets majority)
            (desiredSize (targets.count minority) ratio))
        (List.replicate (classGraphs graphs targets minority).length minority ++
          List.replicate
            (selectedMaj (balancePreds rU est (classGraphs graphs targets majority))
              (classGraphs graphs targets majority)
              (desiredSize (targets.count minority) ratio)).length majority) := by
  unfold balance
  rw [hmm]

theorem balancePreds_length (rU : Nat → ℚ) (est : Option (G → ℚ))
    (gs : List G) : (balancePreds rU est gs).length = gs.length := by
  cases est <;> simp [balancePreds]

theorem sortedPredGraphs_length (preds : List ℚ) (gs : List G)
    (h : preds.length = gs.length) :
    (sortedPredGraphs preds gs).length = gs.length := by
  unfold sortedPredGraphs
  rw [(List.perm_insertionSort predLE _).length_eq, List.length_zip, h,
    Nat.min_self]

theorem selectedMaj_length (preds : List ℚ) (gs : List G) (desired : Nat)
    (h : preds.length = gs.length) :
    (selectedMaj preds gs desired).length = min desired gs.length := by
  unfold selectedMaj
  rw [List.length_map, List.length_take, sortedPredGraphs_length preds gs h]

theorem classGraphs_length [DecidableEq L] (y : L) :
    ∀ (targets : List L) (graphs : List G), targets.length ≤ graphs.length →
      (classGraphs graphs targets y).length = targets.count y := by
  intro targets
  induction targets with
  | nil => intro graphs _; simp [classGraphs]
  | cons t ts ih =>
    intro graphs hlen
    match graphs with
    | [] => simp at hlen
    | g :: gs =>
      simp only [List.length_cons, Nat.succ_le_succ_iff] at hlen
      have ihg := ih gs hlen
      simp only [classGraphs, List.zip_cons_cons, List.filter_cons] at ihg ⊢
      simp only [List.length_map] at ihg
      by_cases ht : t = y
      · simp [ht, List.count_cons, ihg]
      · simp [ht, List.count_cons, ihg, Ne.symm ht]

theorem zip_map_fst_eq (m : G → ℚ) :
    ∀ (gs : List G), ∀ p ∈ List.zip (gs.map m) gs, p.1 = m p.2 := by
  intro gs
  induction gs with
  | nil => intro p hp; simp at hp
  | cons g gs ih =>
    intro p hp
    simp only [List.map_cons, List.zip_cons_cons, List.mem_cons] at hp
    rcases hp with h | h
    · rw [h]
    · exact ih p h

theorem sortedPredGraphs_take_drop (preds : List ℚ) (gs : List G) (n : Nat) :
    ∀ p ∈ (sortedPredGraphs preds gs).take n,
      ∀ q ∈ (sortedPredGraphs preds gs).drop n, p.1 ≤ q.1 := by
  have hs : (sortedPredGraphs preds gs).Sorted predLE :=
    List.sorted_insertionSort predLE _
  have hp : List.Pairwise predLE
      ((sortedPredGraphs preds gs).take n ++ (sortedPredGraphs preds gs).drop n) := by
    rw [List.take_append_drop]
    exact hs
  exact fun p hp1 q hq1 => (List.pairwise_append.mp hp).2.2 p hp1 q hq1

theorem mem_sortedPredGraphs (preds : List ℚ) (gs : List G) :
    ∀ p ∈ sortedPredGraphs preds gs, p ∈ List.zip preds gs :=
  fun _ hp => (List.perm_insertionSort predLE _).mem_iff.mp hp

theorem selectedMaj_margins_le (f : G → ℚ) (gs : List G) (n : Nat) :
    ∀ g1 ∈ selectedMaj (gs.map fun g => |f g|) gs n,
      ∀ g2 ∈ excludedMaj (gs.map fun g => |f g|) gs n, |f g1| ≤ |f g2| := by
  intro g1 h1 g2 h2
  unfold selectedMaj at h1
  unfold excludedMaj at h2
  obtain ⟨p, hp, hpg⟩ := List.mem_map.mp h1
  obtain ⟨q, hq, hqg⟩ := List.mem_map.mp h2
  have hple := sortedPredGraphs_take_drop (gs.map fun g => |f g|) gs n p hp q hq
  have hpz := mem_sortedPredGraphs _ gs p (List.mem_of_mem_take hp)
  have hqz := mem_sortedPredGraphs _ gs q (List.mem_of_mem_drop hq)
  have hp1 : p.1 = |f p.2| := zip_map_fst_eq (fun g => |f g|) gs p hpz
  have hq1 : q.1 = |f q.2| := zip_map_fst_eq (fun g => |f g|) gs q hqz
  rw [← hpg, ← hqg, ← hp1, ← hq1]
  exact hple

theorem balance_out_perm [DecidableEq L] (rSh : Nat → Nat) (rU : Nat → ℚ)
    (graphs : List G) (targets : List L) (est : Option (G → ℚ)) (ratio : ℚ)
    (bg : List G) (bt : List L) (majority minority : L)
    (hmm : balanceMajMin targets = (some majority, some minority))
    (hb : balance rSh rU graphs targets est ratio = some (bg, bt)) :
    bg.Perm (classGraphs graphs targets minority ++
        selectedMaj (balancePreds rU est (classGraphs graphs targets majority))
          (classGraphs graphs targets majority)
          (desiredSize (targets.count minority) ratio)) ∧
      bt.Perm (List.replicate (classGraphs graphs targets minority).length minority ++
        List.replicate
          (selectedMaj (balancePreds rU est (classGraphs graphs targets majority))
            (classGraphs graphs targets majority)
            (desiredSize (targets.count minority) ratio)).length majority) := by
  rw [balance_eq rSh rU graphs targets est ratio majority minority hmm] at hb
  set kept := selectedMaj (balancePreds rU est (classGraphs graphs targets majority))
    (classGraphs graphs targets majority)
    (desiredSize (targets.count minority) ratio) with hkept
  set balg := classGraphs graphs targets minority ++ kept with hbalg
  set balt := List.replicate (classGraphs graphs targets minority).length minority ++
    List.replicate kept.length majority with hbalt
  have hlen : balg.length = balt.length := by
    rw [hbalg, hbalt]
    simp [List.length_append, List.length_replicate]
  exact paired_shuffle_comp_perm rSh hlen hb

/-- C1: when a margin estimator is supplied and `balance` returns, the
majority-class members it keeps are exactly those of smallest absolute
decision value: the output graphs are a permutation of the minority graphs
plus the selected majority graphs, and every selected majority member has
absolute margin at most that of every excluded majority member. -/
theorem balance_margin_selection [DecidableEq L] (rSh : Nat → Nat) (rU : Nat → ℚ)
    (graphs : List G) (targets : List L) (f : G → ℚ) (ratio : ℚ)
    (bg : List G) (bt : List L) (majority minority : L)
    (hmm : balanceMajMin targets = (some majority, some minority))
    (hb : balance rSh rU graphs targets (some f) ratio = some (bg, bt)) :
    bg.Perm (classGraphs graphs targets minority ++
        selectedMaj (balancePreds rU (some f) (classGraphs graphs targets majority))
          (classGraphs graphs targets majority)
          (desiredSize (targets.count minority) ratio)) ∧
      ∀ g1 ∈ selectedMaj (balancePreds rU (some f) (classGraphs graphs targets majority))
          (classGraphs graphs targets majority)
          (desiredSize (targets.count minority) ratio),
        ∀ g2 ∈ excludedMaj (balancePreds rU (some f) (classGraphs graphs targets majority))
            (classGraphs graphs targets majority)
            (desiredSize (targets.count minority) ratio),
          |f g1| ≤ |f g2| := by
  constructor
  · exact (balance_out_perm rSh rU graphs targets (some f) ratio bg bt
      majority minority hmm hb).1
  · have hpreds : balancePreds rU (some f) (classGraphs graphs targets majority) =
        (classGraphs graphs targets majority).map (fun g => |f g|) := rfl
    rw [hpreds]
    exact selectedMaj_margins_le f _ _

theorem balance_count_facts [DecidableEq L] (rSh : Nat → Nat) (rU : Nat → ℚ)
    (graphs : List G) (targets : List L) (est : Option (G → ℚ)) (ratio : ℚ)
    (bg : List G) (bt : List L) (majority minority : L)
    (hmm : balanceMajMin targets = (some majority, some minority))
    (hne : majority ≠ minority)
    (hlen : targets.length ≤ graphs.length)
    (hb : balance rSh rU graphs targets est ratio = some (bg, bt)) :
    bt.count majority =
        min (desiredSize (targets.count minority) ratio) (targets.count majority) ∧
      bt.count minority = targets.count minority ∧
      bt.length = targets.count minority +
        min (desiredSize (targets.count minority) ratio) (targets.count majority) := by
  obtain ⟨hbg, hbt⟩ := balance_out_perm rSh rU graphs targets est ratio bg bt
    majority minority hmm hb
  have hkept : (selectedMaj (balancePreds rU est (classGraphs graphs targets majority))
      (classGraphs graphs targets majority)
      (desiredSize (targets.count minority) ratio)).length =
      min (desiredSize (targets.count minority) ratio)
        (classGraphs graphs targets majority).length :=
    selectedMaj_length _ _ _ (balancePreds_length rU est _)
  have hmajlen : (classGraphs graphs targets majority).length = targets.count majority :=
    classGraphs_length majority targets graphs hlen
  have hminlen : (classGraphs graphs targets minority).length = targets.count minority :=
    classGraphs_length minority targets graphs hlen
  refine ⟨?_, ?_, ?_⟩
  · rw [hbt.count_eq majority, List.count_append]
    simp only [List.count_replicate]
    rw [if_neg (by simpa using (Ne.symm (Ne.symm hne)).symm), if_pos (by simp)]
    rw [hkept, hmajlen]
    omega
  · rw [hbt.count_eq minority, List.count_append]
    simp only [List.count_replicate]
    rw [if_pos (by simp), if_neg (by simpa using hne)]
    rw [hminlen, Nat.add_zero]
  · rw [hbt.length_eq, List.length_append, List.length_replicate,
      List.length_replicate, hminlen, hkept, hmajlen]

/-- C2 (amended): for a multi-class input whose majority and minority classes
are distinct, the output majority-class count is
`min(int(minority_count * ratio), input majority count)` — equal to
`int(minority_count * ratio)` exactly when the majority class is large
enough — and the output has `minority_count + ` that many items in total.
On the spec scenario (labels `[1,1,1,1,0,0]`, `ratio=1`) this yields exactly
4 items: 2 minority and 2 majority members. -/
theorem balance_majority_count [DecidableEq L] (rSh : Nat → Nat) (rU : Nat → ℚ)
    (graphs : List G) (targets : List L) (est : Option (G → ℚ)) (ratio : ℚ)
    (bg : List G) (bt : List L) (majority minority : L)
    (hmm : balanceMajMin targets = (some majority, some minority))
    (hne : majority ≠ minority)
    (hlen : targets.length ≤ graphs.length)
    (hb : balance rSh rU graphs targets est ratio = some (bg, bt)) :
    bt.count majority =
        min (desiredSize (targets.count minority) ratio) (targets.count majority) ∧
      bt.count minority = targets.count minority ∧
      bt.length = targets.count minority +
        min (desiredSize (targets.count minority) ratio) (targets.count majority) :=
  balance_count_facts rSh rU graphs targets est ratio bg bt majority minority
    hmm hne hlen hb

theorem balance_majority_count_witness :
    balanceMajMin ([1, 1, 1, 1, 0, 0] : List Nat) = (some 1, some 0) ∧
      balance (fun _ => 0) (fun n => (n : ℚ)) ([0, 1, 2, 3, 4, 5] : List Nat)
          ([1, 1, 1, 1, 0, 0] : List Nat) (some (fun g => (g : ℚ))) 1 =
        some ([4, 5, 0, 1], [0, 0, 1, 1]) ∧
      ([0, 0, 1, 1] : List Nat).count 1 =
        min (desiredSize (([1, 1, 1, 1, 0, 0] : List Nat).count 0) 1)
          (([1, 1, 1, 1, 0, 0] : List Nat).count 1) ∧
      ([0, 0, 1, 1] : List Nat).count 0 = ([1, 1, 1, 1, 0, 0] : List Nat).count 0 ∧
      ([0, 0, 1, 1] : List Nat).length = 4 := by
  have h1 : balanceMajMin ([1, 1, 1, 1, 0, 0] : List Nat) = (some 1, some 0) := by
    decide
  have h2 : balance (fun _ => 0) (fun n => (n : ℚ)) ([0, 1, 2, 3, 4, 5] : List Nat)
      ([1, 1, 1, 1, 0, 0] : List Nat) (some (fun g => (g : ℚ))) 1 =
      some ([4, 5, 0, 1], [0, 0, 1, 1]) := by decide
  have h3 := balance_majority_count (fun _ => 0) (fun n => (n : ℚ))
    ([0, 1, 2, 3, 4, 5] : List Nat) ([1, 1, 1, 1, 0, 0] : List Nat)
    (some (fun g => (g : ℚ))) 1 [4, 5, 0, 1] [0, 0, 1, 1] 1 0 h1
    (by decide) (by decide) h2
  exact ⟨h1, h2, h3.1, h3.2.1, by decide⟩

/-- C2 counterexample: on graphs `[0..4]`, labels `[1,1,1,0,0]`, `ratio=2`,
the desired majority size `int(2 * 2) = 4` exceeds the 3 available majority
members, so the output majority-class count is 3, not
`int(minority_count * ratio) = 4`: the unconditional equality claimed does
not hold. -/
theorem balance_majority_count_counterexample :
    balanceMajMin ([1, 1, 1, 0, 0] : List Nat) = (some 1, some 0) ∧
      balance (fun _ => 0) (fun n => (n : ℚ)) ([0, 1, 2, 3, 4] : List Nat)
          ([1, 1, 1, 0, 0] : List Nat) (some (fun g => (g : ℚ))) 2 =
        some ([3, 4, 0, 1, 2], [0, 0, 1, 1, 1]) ∧
      desiredSize (([1, 1, 1, 0, 0] : List Nat).count 0) 2 = 4 ∧
      ([0, 0, 1, 1, 1] : List Nat).count 1 = 3 := by
  refine ⟨by decide, by decide, by decide, by decide⟩

/-- C9 (amended): when the majority and minority classes are distinct,
`balance` keeps the minority class intact: every input graph bearing the
minority label appears in the output graphs, and the output minority-class
count equals the input minority-class count. -/
theorem balance_minority_intact [DecidableEq L] (rSh : Nat → Nat) (rU : Nat → ℚ)
    (graphs : List G) (targets : List L) (est : Option (G → ℚ)) (ratio : ℚ)
    (bg : List G) (bt : List L) (majority minority : L)
    (hmm : balanceMajMin targets = (some majority, some minority))
    (hne : majority ≠ minority)
    (hlen : targets.length ≤ graphs.length)
    (hb : balance rSh rU graphs targets est ratio = some (bg, bt)) :
    (∀ p ∈ List.zip targets graphs, p.1 = minority → p.2 ∈ bg) ∧
      bt.count minority = targets.count minority := by
  obtain ⟨hbg, _⟩ := balance_out_perm rSh rU graphs targets est ratio bg bt
    majority minority hmm hb
  constructor
  · intro p hp hpmin
    apply hbg.mem_iff.mpr
    apply List.mem_append.mpr
    left
    unfold classGraphs
    apply List.mem_map.mpr
    exact ⟨p, List.mem_filter.mpr ⟨hp, by simp [hpmin]⟩, rfl⟩
  · exact (balance_count_facts rSh rU graphs targets est ratio bg bt
      majority minority hmm hne hlen hb).2.1

/-- C9 counterexample: on graphs `[10,20]`, labels `[0,1]` (two classes with
equal counts), the scan makes class 0 both majority and minority; `balance`
then returns graphs `[10,10]` with labels `[0,0]`: the output minority-class
count is 2, not the input minority count 1, so the unconditional claim fails
on this multi-class input. -/
theorem balance_minority_intact_counterexample :
    balanceMajMin ([0, 1] : List Nat) = (some 0, some 0) ∧
      balance (fun _ => 0) (fun n => (n : ℚ)) ([10, 20] : List Nat)
          ([0, 1] : List Nat) none 1 = some ([10, 10], [0, 0]) ∧
      ([0, 0] : List Nat).count 0 = 2 ∧
      ([0, 1] : List Nat).count 0 = 1 := by
  refine ⟨by decide, by decide, by decide, by decide⟩

theorem keysOf_foldl_absorb [DecidableEq L] (y : L) :
    ∀ (ts : List L) (acc : List L), (∀ t ∈ ts, t = y) → y ∈ acc →
      ts.foldl (fun acc z => if z ∈ acc then acc else acc ++ [z]) acc = acc := by
  intro ts
  induction ts with
  | nil => intro acc _ _; rfl
  | cons t ts ih =>
    intro acc hall hy
    have ht : t = y := hall t (List.mem_cons_self _ _)
    simp only [List.foldl_cons, ht, if_pos hy]
    exact ih acc (fun t' ht' => hall t' (List.mem_cons_of_mem _ ht')) hy

theorem keysOf_all_eq [DecidableEq L] (y : L) (targets : List L)
    (hne : targets ≠ []) (hall : ∀ t ∈ targets, t = y) : keysOf targets = [y] := by
  match targets with
  | [] => exact absurd rfl hne
  | t :: ts =>
    have ht : t = y := hall t (List.mem_cons_self _ _)
    unfold keysOf
    simp only [List.foldl_cons, List.not_mem_nil, if_neg (List.not_mem_nil t),
      List.nil_append]
    rw [ht]
    exact keysOf_foldl_absorb y ts [y]
      (fun t' ht' => hall t' (List.mem_cons_of_mem _ ht'))
      (List.mem_singleton_self y)

theorem balanceMajMin_single [DecidableEq L] (y : L) (targets : List L)
    (hne : targets ≠ []) (hall : ∀ t ∈ targets, t = y)
    (hsmall : targets.length < 1000000) :
    balanceMajMin targets = (some y, some y) := by
  unfold balanceMajMin
  rw [keysOf_all_eq y targets hne hall]
  have hcnt : targets.count y = targets.length :=
    List.count_eq_length.mpr (fun b hb => (hall b hb).symm)
  have hpos : 0 < targets.count y := by
    rw [hcnt]
    match targets with
    | [] => exact absurd rfl hne
    | t :: ts => simp
  simp only [findMajMin, hcnt]
  rw [if_pos (by omega : 0 < targets.length),
    if_pos (by omega : targets.length < 1000000)]

/-- C8 (amended): `balance` on a single-class dataset does not raise a
configuration error: the single class becomes both majority and minority,
and `balance` returns a result that contains the class's graphs twice over —
all of them as minority members plus up to `int(count * ratio)` of them again
as selected majority members. -/
theorem balance_single_class_returns [DecidableEq L] (rSh : Nat → Nat)
    (rU : Nat → ℚ) (graphs : List G) (targets : List L) (est : Option (G → ℚ))
    (ratio : ℚ) (y : L)
    (hne : targets ≠ []) (hall : ∀ t ∈ targets, t = y)
    (hsmall : targets.length < 1000000)
    (hlen : targets.length ≤ graphs.length) :
    ∃ bg bt, balance rSh rU graphs targets est ratio = some (bg, bt) ∧
      bg.length = targets.length +
        min (desiredSize targets.length ratio) targets.length := by
  have hmm := balanceMajMin_single y targets hne hall hsmall
  have hcnt : targets.count y = targets.length :=
    List.count_eq_length.mpr (fun b hb => (hall b hb).symm)
  rw [balance_eq rSh rU graphs targets est ratio y y hmm]
  set mg := classGraphs graphs targets y with hmg
  set kept := selectedMaj (balancePreds rU est mg) mg
    (desiredSize (targets.count y) ratio) with hk
  have hmaj : mg.length = targets.count y :=
    classGraphs_length y targets graphs hlen
  have hkept : kept.length = min (desiredSize (targets.count y) ratio) mg.length := by
    rw [hk]
    exact selectedMaj_length _ _ _ (balancePreds_length rU est _)
  have htpos : targets.length ≠ 0 := fun h0 => hne (List.length_eq_zero.mp h0)
  have hgne : mg ++ kept ≠ [] := by
    intro h0
    have := congrArg List.length h0
    simp only [List.length_append, List.length_nil] at this
    rw [hmaj, hcnt] at this
    omega
  have htne : List.replicate mg.length y ++ List.replicate kept.length y ≠ [] := by
    intro h0
    have := congrArg List.length h0
    simp only [List.length_append, List.length_replicate, List.length_nil] at this
    rw [hmaj, hcnt] at this
    omega
  have hsome := paired_shuffle_eq_some rSh _ _ (zip_ne_nil hgne htne)
  refine ⟨_, _, hsome, ?_⟩
  rw [((paired_shuffle_lengths rSh hsome).1 :
    (shuffleModel rSh (List.zip (mg ++ kept)
        (List.replicate mg.length y ++ List.replicate kept.length y))).unzip.1.length =
      min (mg ++ kept).length
        (List.replicate mg.length y ++ List.replicate kept.length y).length)]
  simp only [List.length_append, List.length_replicate]
  rw [hcnt] at hmaj hkept
  omega

theorem balance_single_class_returns_witness :
    ∃ bg bt, balance (fun _ => 0) (fun n => (n : ℚ)) ([10, 20] : List Nat)
        ([5, 5] : List Nat) none 2 = some (bg, bt) ∧
      bg.length = ([5, 5] : List Nat).length +
        min (desiredSize ([5, 5] : List Nat).length 2) ([5, 5] : List Nat).length :=
  balance_single_class_returns (fun _ => 0) (fun n => (n : ℚ)) [10, 20] [5, 5]
    none 2 5 (by decide) (by decide) (by decide) (by decide)

/-- C8 counterexample: `balance` on the single-class dataset with graphs
`[10, 20]` and labels `[5, 5]` returns a value (with the two graphs
duplicated) instead of raising. -/
theorem balance_single_class_counterexample :
    balance (fun _ => 0) (fun n => (n : ℚ)) ([10, 20] : List Nat)
        ([5, 5] : List Nat) none 2 = some ([10, 20, 10, 20], [5, 5, 5, 5]) := by
  decide

theorem balance_minority_intact_witness :
    balanceMajMin ([1, 1, 1, 1, 0, 0] : List Nat) = (some 1, some 0) ∧
      balance (fun _ => 0) (fun n => (n : ℚ)) ([0, 1, 2, 3, 4, 5] : List Nat)
          ([1, 1, 1, 1, 0, 0] : List Nat) (some (fun g => (g : ℚ))) 1 =
        some ([4, 5, 0, 1], [0, 0, 1, 1]) ∧
      (∀ p ∈ List.zip ([1, 1, 1, 1, 0, 0] : List Nat) ([0, 1, 2, 3, 4, 5] : List Nat),
        p.1 = 0 → p.2 ∈ ([4, 5, 0, 1] : List Nat)) ∧
      ([0, 0, 1, 1] : List Nat).count 0 = ([1, 1, 1, 1, 0, 0] : List Nat).count 0 := by
  have h1 : balanceMajMin ([1, 1, 1, 1, 0, 0] : List Nat) = (some 1, some 0) := by
    decide
  have h2 : balance (fun _ => 0) (fun n => (n : ℚ)) ([0, 1, 2, 3, 4, 5] : List Nat)
      ([1, 1, 1, 1, 0, 0] : List Nat) (some (fun g => (g : ℚ))) 1 =
      some ([4, 5, 0, 1], [0, 0, 1, 1]) := by decide
  have h3 := balance_minority_intact (fun _ => 0) (fun n => (n : ℚ))
    ([0, 1, 2, 3, 4, 5] : List Nat) ([1, 1, 1, 1, 0, 0] : List Nat)
    (some (fun g => (g : ℚ))) 1 [4, 5, 0, 1] [0, 0, 1, 1] 1 0 h1
    (by decide) (by decide) h2
  exact ⟨h1, h2, h3.1, h3.2⟩

theorem balance_margin_selection_witness :
    balanceMajMin ([1, 1, 1, 1, 0, 0] : List Nat) = (some 1, some 0) ∧
      balance (fun _ => 0) (fun n => (n : ℚ)) ([0, 1, 2, 3, 4, 5] : List Nat)
          ([1, 1, 1, 1, 0, 0] : List Nat) (some (fun g => (g : ℚ))) 2 =
        some ([4, 5, 0, 1, 2, 3], [0, 0, 1, 1, 1, 1]) ∧
      ∀ g1 ∈ selectedMaj
          (balancePreds (fun n => (n : ℚ)) (some (fun g => (g : ℚ)))
            (classGraphs ([0, 1, 2, 3, 4, 5] : List Nat) [1, 1, 1, 1, 0, 0] 1))
          (classGraphs ([0, 1, 2, 3, 4, 5] : List Nat) [1, 1, 1, 1, 0, 0] 1)
          (desiredSize (([1, 1, 1, 1, 0, 0] : List Nat).count 0) 2),
        ∀ g2 ∈ excludedMaj
            (balancePreds (fun n => (n : ℚ)) (some (fun g => (g : ℚ)))
              (classGraphs ([0, 1, 2, 3, 4, 5] : List Nat) [1, 1, 1, 1, 0, 0] 1))
            (classGraphs ([0, 1, 2, 3, 4, 5] : List Nat) [1, 1, 1, 1, 0, 0] 1)
            (desiredSize (([1, 1, 1, 1, 0, 0] : List Nat).count 0) 2),
          |((g1 : Nat) : ℚ)| ≤ |((g2 : Nat) : ℚ)| := by
  have h1 : balanceMajMin ([1, 1, 1, 1, 0, 0] : List Nat) = (some 1, some 0) := by
    decide
  have h2 : balance (fun _ => 0) (fun n => (n : ℚ)) ([0, 1, 2, 3, 4, 5] : List Nat)
      ([1, 1, 1, 1, 0, 0] : List Nat) (some (fun g => (g : ℚ))) 2 =
      some ([4, 5, 0, 1, 2, 3], [0, 0, 1, 1, 1, 1]) := by decide
  have h3 := balance_margin_selection (fun _ => 0) (fun n => (n : ℚ))
    ([0, 1, 2, 3, 4, 5] : List Nat) ([1, 1, 1, 1, 0, 0] : List Nat)
    (fun g => (g : ℚ)) 2 [4, 5, 0, 1, 2, 3] [0, 0, 1, 1, 1, 1] 1 0 h1 h2
  exact ⟨h1, h2, h3.2⟩

theorem subsample_bounds_witness :
    subsample (fun _ => 0) ([10, 20, 30] : List Nat) ([0, 0, 1] : List Nat) 2 =
        some ([10, 30], [0, 1]) ∧
      ([10, 30] : List Nat).length ≤ 2 ∧
        ([0, 1] : List Nat).length = ([10, 30] : List Nat).length ∧
        ∀ y ∈ ([0, 1] : List Nat), y ∈ ([0, 0, 1] : List Nat) := by
  have hres : subsample (fun _ => 0) ([10, 20, 30] : List Nat)
      ([0, 0, 1] : List Nat) 2 = some ([10, 30], [0, 1]) := by decide
  exact ⟨hres, subsample_bounds (fun _ => 0) [10, 20, 30] [0, 0, 1] 2 [10, 30] [0, 1] hres⟩

theorem pymax_mem (acc : ℚ × Nat × Nat) :
    ∀ (l : List (ℚ × Nat × Nat)), pymax acc l = acc ∨ pymax acc l ∈ l := by
  intro l
  induction l generalizing acc with
  | nil => exact Or.inl rfl
  | cons x xs ih =>
    rw [pymax]
    by_cases hx : pairLt acc x
    · rw [if_pos hx]
      rcases ih x with h | h
      · exact Or.inr (by rw [h]; exact List.mem_cons_self _ _)
      · exact Or.inr (List.mem_cons_of_mem _ h)
    · rw [if_neg hx]
      rcases ih acc with h | h
      · exact Or.inl h
      · exact Or.inr (List.mem_cons_of_mem _ h)

theorem pairLt_le {a b : ℚ × Nat × Nat} (h : pairLt a b = true) : a.1 ≤ b.1 := by
  unfold pairLt at h
  simp only [Bool.or_eq_true, Bool.and_eq_true, decide_eq_true_eq] at h
  rcases h with h | ⟨h, _⟩
  · exact le_of_lt h
  · exact le_of_eq h

theorem pairLt_not_lt {a b : ℚ × Nat × Nat} (h : pairLt a b = false) :
    b.1 ≤ a.1 := by
  unfold pairLt at h
  simp only [Bool.or_eq_false_iff, Bool.and_eq_false_iff, decide_eq_false_iff_not] at h
  have h1 : ¬a.1 < b.1 := by
    rcases h with ⟨h1, _⟩
    exact h1
  exact le_of_not_lt h1

theorem pymax_score_max (acc : ℚ × Nat × Nat) :
    ∀ (l : List (ℚ × Nat × Nat)),
      acc.1 ≤ (pymax acc l).1 ∧ ∀ x ∈ l, x.1 ≤ (pymax acc l).1 := by
  intro l
  induction l generalizing acc with
  | nil => exact ⟨le_refl _, by simp⟩
  | cons x xs ih =>
    rw [pymax]
    by_cases hx : pairLt acc x
    · rw [if_pos hx]
      obtain ⟨h1, h2⟩ := ih x
      refine ⟨le_trans (pairLt_le hx) h1, ?_⟩
      intro z hz
      rcases List.mem_cons.mp hz with h | h
      · exact h ▸ h1
      · exact h2 z h
    · rw [if_neg hx]
      obtain ⟨h1, h2⟩ := ih acc
      refine ⟨h1, ?_⟩
      intro z hz
      rcases List.mem_cons.mp hz with h | h
      · exact h ▸ le_trans (pairLt_not_lt (Bool.of_not_eq_true hx)) h1
      · exact h2 z h

theorem pychoice_mem (l : List Nat) (i : Nat) (hl : l ≠ []) : pychoice l i ∈ l := by
  unfold pychoice
  have hlen : 0 < l.length := List.length_pos.mpr hl
  have hmod : i % l.length < l.length := Nat.mod_lt _ hlen
  rw [List.getD_eq_getElem l 0 hmod]
  exact List.getElem_mem hmod

theorem sample_params_bounds (rc rd : Nat) :
    1 ≤ (sample_params rc rd).1 ∧ (sample_params rc rd).1 < 5 ∧
      (sample_params rc rd).2 < 6 := by
  have hr : pychoice param_distr_r rc ∈ ([1, 2, 3, 4] : List Nat) :=
    pychoice_mem param_distr_r rc (by decide)
  have hd : pychoice param_distr_d rd ∈ ([0, 1, 2, 3, 4, 5] : List Nat) :=
    pychoice_mem param_distr_d rd (by decide)
  simp only [List.mem_cons, List.not_mem_nil, or_false] at hr hd
  refine ⟨?_, ?_, ?_⟩
  · show 1 ≤ pychoice param_distr_r rc
    rcases hr with h | h | h | h <;> rw [h] <;> omega
  · show pychoice param_distr_r rc < 5
    rcases hr with h | h | h | h <;> rw [h] <;> omega
  · show pychoice param_distr_d rd < 6
    rcases hd with h | h | h | h | h | h <;> rw [h] <;> omega

/-- C4: whenever `model_selection_rand` returns an estimator, it is a newly
constructed, unfit estimator (`model = none`) carrying the winning trial's
hyperparameter draw — hence `1 ≤ r < 5` and `d < 6`, the declared grid
bounds — and the winning trial's mean cross-validation score is at least
that of every trial. -/
theorem model_selection_rand_grid [DecidableEq L]
    (cvs : Option (V → ℚ) → List V → List L → String → Nat → List ℚ)
    (vec : Nat → Nat → Bool → G → V) (rSub : Nat → Nat) (rc rd : Nat → Nat)
    (graphs : List G) (targets : List L) (n_iter : Nat)
    (subsample_size : Option Nat) (e : EdenEstimator V L)
    (h : model_selection_rand cvs vec rSub rc rd graphs targets n_iter
        subsample_size = some e) :
    e.model = none ∧ 1 ≤ e.r ∧ e.r < 5 ∧ e.d < 6 ∧
      ∃ gs ts best,
        ((subsample_size = none ∧ gs = graphs ∧ ts = targets) ∨
          ∃ sz, subsample_size = some sz ∧
            subsample rSub graphs targets sz = some (gs, ts)) ∧
        best ∈ (List.range n_iter).map
            (fun t => eval_params cvs vec gs ts (rc t) (rd t)) ∧
        (∀ x ∈ (List.range n_iter).map
            (fun t => eval_params cvs vec gs ts (rc t) (rd t)), x.1 ≤ best.1) ∧
        e = mkEdenEstimator best.2.1 best.2.2 (-1) true false 200 2 := by
  have main : ∀ (gs : List G) (ts : List L),
      (match (List.range n_iter).map
          (fun t => eval_params cvs vec gs ts (rc t) (rd t)) with
        | [] => none
        | s :: rest =>
          some (mkEdenEstimator (V := V) (L := L) (pymax s rest).2.1
            (pymax s rest).2.2 (-1) true false 200 2)) = some e →
      e.model = none ∧ 1 ≤ e.r ∧ e.r < 5 ∧ e.d < 6 ∧
        ∃ best,
          best ∈ (List.range n_iter).map
              (fun t => eval_params cvs vec gs ts (rc t) (rd t)) ∧
          (∀ x ∈ (List.range n_iter).map
              (fun t => eval_params cvs vec gs ts (rc t) (rd t)), x.1 ≤ best.1) ∧
          e = mkEdenEstimator best.2.1 best.2.2 (-1) true false 200 2 := by
    intro gs ts hm
    rcases hmap : (List.range n_iter).map
        (fun t => eval_params cvs vec gs ts (rc t) (rd t)) with _ | ⟨s, rest⟩
    · rw [hmap] at hm
      cases hm
    · rw [hmap] at hm
      have he : e = mkEdenEstimator (pymax s rest).2.1 (pymax s rest).2.2
          (-1) true false 200 2 := (Option.some_inj.mp hm).symm
      have hmem : pymax s rest ∈ s :: rest := by
        rcases pymax_mem s rest with h1 | h1
        · rw [h1]
          exact List.mem_cons_self _ _
        · exact List.mem_cons_of_mem _ h1
      have hmem2 : pymax s rest ∈ (List.range n_iter).map
          (fun t => eval_params cvs vec gs ts (rc t) (rd t)) := by
        rw [hmap]
        exact hmem
      obtain ⟨t, _, hbest⟩ := List.mem_map.mp hmem2
      have hparams : (pymax s rest).2 = sample_params (rc t) (rd t) := by
        rw [← hbest]
        rfl
      have hb := sample_params_bounds (rc t) (rd t)
      refine ⟨by rw [he]; rfl, ?_, ?_, ?_, pymax s rest, hmem, ?_, he⟩
      · rw [he]
        show 1 ≤ (pymax s rest).2.1
        rw [hparams]
        exact hb.1
      · rw [he]
        show (pymax s rest).2.1 < 5
        rw [hparams]
        exact hb.2.1
      · rw [he]
        show (pymax s rest).2.2 < 6
        rw [hparams]
        exact hb.2.2
      · intro x hx
        rcases List.mem_cons.mp hx with h1 | h1
        · rw [h1]
          exact (pymax_score_max s rest).1
        · exact (pymax_score_max s rest).2 x h1
  rcases subsample_size with _ | sz
  · simp only [model_selection_rand] at h
    obtain ⟨h1, h2, h3, h4, best, hm, hmax, hbe⟩ := main graphs targets h
    exact ⟨h1, h2, h3, h4, graphs, targets, best,
      Or.inl ⟨rfl, rfl, rfl⟩, hm, hmax, hbe⟩
  · simp only [model_selection_rand] at h
    rcases hsub : subsample rSub graphs targets sz with _ | ⟨gs, ts⟩
    · rw [hsub] at h
      cases h
    · rw [hsub] at h
      obtain ⟨h1, h2, h3, h4, best, hm, hmax, hbe⟩ := main gs ts h
      exact ⟨h1, h2, h3, h4, gs, ts, best,
        Or.inr ⟨sz, rfl, hsub⟩, hm, hmax, hbe⟩

theorem model_selection_rand_grid_witness :
    model_selection_rand (V := Nat) (fun _ _ _ _ _ => []) (fun _ _ _ g => g)
        (fun _ => 0) (fun _ => 0) (fun _ => 0) ([0] : List Nat) ([0] : List Nat)
        1 none = some (mkEdenEstimator 1 0 (-1) true false 200 2) ∧
      (mkEdenEstimator (V := Nat) (L := Nat) 1 0 (-1) true false 200 2).model =
        none ∧
      1 ≤ (mkEdenEstimator (V := Nat) (L := Nat) 1 0 (-1) true false 200 2).r ∧
      (mkEdenEstimator (V := Nat) (L := Nat) 1 0 (-1) true false 200 2).r < 5 ∧
      (mkEdenEstimator (V := Nat) (L := Nat) 1 0 (-1) true false 200 2).d < 6 := by
  have h : model_selection_rand (V := Nat) (fun _ _ _ _ _ => []) (fun _ _ _ g => g)
      (fun _ => 0) (fun _ => 0) (fun _ => 0) ([0] : List Nat) ([0] : List Nat)
      1 none = some (mkEdenEstimator 1 0 (-1) true false 200 2) := rfl
  have h2 := model_selection_rand_grid (fun _ _ _ _ _ => []) (fun _ _ _ g => g)
    (fun _ => 0) (fun _ => 0) (fun _ => 0) ([0] : List Nat) ([0] : List Nat)
    1 none (mkEdenEstimator 1 0 (-1) true false 200 2) h
  exact ⟨h, h2.1, h2.2.1, h2.2.2.1, h2.2.2.2.1⟩

/-- C6: the `fit` pipeline.  With balancing disabled, the classifier is
trained on the vectorized raw dataset.  With balancing enabled and
`randomize` (the default), the dataset is balanced with no margin estimator
and the classifier is trained on the vectorized balanced data.  With
balancing enabled and `randomize=False`, a subsample first bootstraps a
margin estimator, the dataset is balanced using that estimator's decision
function, and the classifier is trained on the vectorized balanced data. -/
theorem fit_pipeline [DecidableEq L] (sgdFit : List V → List L → V → ℚ)
    (vec : Nat → Nat → Bool → G → V) (rSub rSh : Nat → Nat) (rU : Nat → ℚ)
    (e : EdenEstimator V L) (graphs : List G) (targets : List L) :
    (e.balance = false → ∀ randomize,
      EdenEstimator.fit sgdFit vec rSub rSh rU e graphs targets randomize =
        some { e with
          model := some (sgdFit (e.transform vec graphs) targets) }) ∧
    (e.balance = true →
      EdenEstimator.fit sgdFit vec rSub rSh rU e graphs targets true =
        (Eden.balance rSh rU graphs targets none e.ratio).map (fun bd =>
          { e with
            model := some (sgdFit (e.transform vec bd.1) bd.2) })) ∧
    (e.balance = true → ∀ e',
      EdenEstimator.fit sgdFit vec rSub rSh rU e graphs targets false = some e' →
      ∃ sg st bg bt,
        subsample rSub graphs targets e.subsample_size = some (sg, st) ∧
        Eden.balance rSh rU graphs targets
          (some (fun g =>
            sgdFit (e.transform vec sg) st (vec e.r e.d e.discrete g)))
          e.ratio = some (bg, bt) ∧
        e' = { e with
          model := some (sgdFit (e.transform vec bg) bt) }) := by
  refine ⟨?_, ?_, ?_⟩
  · intro hb randomize
    simp [EdenEstimator.fit, hb]
  · intro hb
    rcases hbal : Eden.balance rSh rU graphs targets none e.ratio with _ | ⟨bg, bt⟩
    · simp [EdenEstimator.fit, hb, hbal]
    · simp [EdenEstimator.fit, hb, hbal]
  · intro hb e' hfit
    rcases hsub : subsample rSub graphs targets e.subsample_size with _ | ⟨sg, st⟩
    · simp only [EdenEstimator.fit, hb, if_true, Bool.false_eq_true, if_false,
        hsub] at hfit
      exact Option.noConfusion hfit
    · rcases hbal : Eden.balance rSh rU graphs targets
          (some (fun g =>
            sgdFit (e.transform vec sg) st (vec e.r e.d e.discrete g)))
          e.ratio with _ | ⟨bg, bt⟩
      · simp only [EdenEstimator.fit, hb, if_true, Bool.false_eq_true, if_false,
          hsub, hbal] at hfit
        exact Option.noConfusion hfit
      · simp only [EdenEstimator.fit, hb, if_true, Bool.false_eq_true, if_false,
          hsub, hbal, Option.some_inj] at hfit
        refine ⟨sg, st, bg, bt, rfl, hbal, ?_⟩
        rw [hb]
        exact hfit.symm

theorem fit_pipeline_witness :
    EdenEstimator.fit (fun _ _ _ => (0 : ℚ)) (fun _ _ _ g => g) (fun _ => 0)
        (fun _ => 0) (fun n => (n : ℚ))
        (mkEdenEstimator (V := Nat) (L := Nat) 1 1 (-1) true false 200 2)
        [7] [0] true =
      some { (mkEdenEstimator (V := Nat) (L := Nat) 1 1 (-1) true false 200 2)
        with model := some ((fun _ _ _ => (0 : ℚ))
          ((mkEdenEstimator (V := Nat) (L := Nat) 1 1 (-1)
            true false 200 2).transform (fun _ _ _ g => g) [7]) [0]) } ∧
    ∃ sg st bg bt,
      subsample (fun _ => 0) ([10, 20] : List Nat) ([5, 6] : List Nat)
          (mkEdenEstimator (V := Nat) (L := Nat) 1 1 (-1) true true 200
            2).subsample_size = some (sg, st) ∧
      Eden.balance (fun _ => 0) (fun n => (n : ℚ)) ([10, 20] : List Nat)
          ([5, 6] : List Nat)
          (some (fun g => (fun _ _ _ => (0 : ℚ))
            ((mkEdenEstimator (V := Nat) (L := Nat) 1 1 (-1)
              true true 200 2).transform (fun _ _ _ g => g) sg) st
            ((fun _ _ _ g => g) 1 1 true g)))
          (mkEdenEstimator (V := Nat) (L := Nat) 1 1 (-1)
            true true 200 2).ratio = some (bg, bt) ∧
      ({ (mkEdenEstimator (V := Nat) (L := Nat) 1 1 (-1) true true 200 2) with
          model := some ((fun _ _ _ => (0 : ℚ)) [(10 : Nat), 10] [(5 : Nat), 5]) }
        : EdenEstimator Nat Nat) =
        { (mkEdenEstimator (V := Nat) (L := Nat) 1 1 (-1) true true 200 2) with
          model := some ((fun _ _ _ => (0 : ℚ))
            ((mkEdenEstimator (V := Nat) (L := Nat) 1 1 (-1)
              true true 200 2).transform (fun _ _ _ g => g) bg) bt) } := by
  constructor
  · exact (fit_pipeline (fun _ _ _ => (0 : ℚ)) (fun _ _ _ g => g) (fun _ => 0)
      (fun _ => 0) (fun n => (n : ℚ))
      (mkEdenEstimator 1 1 (-1) true false 200 2) [7] [0]).1 rfl true
  · exact (fit_pipeline (fun _ _ _ => (0 : ℚ)) (fun _ _ _ g => g) (fun _ => 0)
      (fun _ => 0) (fun n => (n : ℚ))
      (mkEdenEstimator 1 1 (-1) true true 200 2) [10, 20] [5, 6]).2.2 rfl
      { (mkEdenEstimator 1 1 (-1) true true 200 2) with
        model := some ((fun _ _ _ => (0 : ℚ)) [(10 : Nat), 10] [(5 : Nat), 5]) }
      (by rfl)

/-- C7: `cross_val_score` returns the per-fold scores of the vectorized full
dataset and mutates no estimator state: `r`, `d`, `n_jobs`, `discrete`,
`balance`, `subsample_size`, `ratio` and the trained model are all unchanged
by the call. -/
theorem cross_val_score_no_mutation
    (cvs : Option (V → ℚ) → List V → List L → String → Nat → List ℚ)
    (vec : Nat → Nat → Bool → G → V) (e : EdenEstimator V L)
    (graphs : List G) (target : List L) (scoring : String) (cv : Nat) :
    (EdenEstimator.cross_val_score cvs vec e graphs target scoring cv).1 =
        cvs e.model (graphs.map (vec e.r e.d e.discrete)) target scoring cv ∧
      (EdenEstimator.cross_val_score cvs vec e graphs target scoring cv).2.r = e.r ∧
      (EdenEstimator.cross_val_score cvs vec e graphs target scoring cv).2.d = e.d ∧
      (EdenEstimator.cross_val_score cvs vec e graphs target scoring
        cv).2.n_jobs = e.n_jobs ∧
      (EdenEstimator.cross_val_score cvs vec e graphs target scoring
        cv).2.discrete = e.discrete ∧
      (EdenEstimator.cross_val_score cvs vec e graphs target scoring
        cv).2.balance = e.balance ∧
      (EdenEstimator.cross_val_score cvs vec e graphs target scoring
        cv).2.subsample_size = e.subsample_size ∧
      (EdenEstimator.cross_val_score cvs vec e graphs target scoring
        cv).2.ratio = e.ratio ∧
      (EdenEstimator.cross_val_score cvs vec e graphs target scoring
        cv).2.model = e.model :=
  ⟨rfl, rfl, rfl, rfl, rfl, rfl, rfl, rfl, rfl⟩

end Eden

